import Mathlib

/-!
Verification of the 6502 CPU core (src/cpu.rs, src/flags_register.rs,
src/memory_bus.rs) against its specification.

The embedding is shallow: machine words are `Nat` with explicit `% 256` /
`% 65536` where the Rust code uses wrapping `u8` / `u16` arithmetic, the
memory bus is a total byte map (its `read_byte`/`write_byte` contract), and
each CPU method becomes a pure function on an explicit `Cpu` state record.
-/

namespace Emu6502

/-! ## flags_register.rs -/

/-- Enum `FlagPosition`; `toNat` carries the source discriminants
(Negative=7, Overflow=6, DecimalMode=3, IrqDisable=2, Zero=1, Carry=0). -/
inductive FlagPosition where
  | Negative
  | Overflow
  | DecimalMode
  | IrqDisable
  | Zero
  | Carry
deriving DecidableEq

def FlagPosition.toNat : FlagPosition → Nat
  | .Negative => 7
  | .Overflow => 6
  | .DecimalMode => 3
  | .IrqDisable => 2
  | .Zero => 1
  | .Carry => 0

/-- Newtype `FlagsRegister(u8)`. -/
structure FlagsRegister where
  bits : Nat
deriving DecidableEq

/-- Constructor `FlagsRegister::new` (the spec calls it `from_byte`). -/
def FlagsRegister.new (bits : Nat) : FlagsRegister := ⟨bits⟩

/-- Conversion `Into<u8> for &FlagsRegister` (the spec calls it `to_byte`). -/
def FlagsRegister.toByte (f : FlagsRegister) : Nat := f.bits

/-- Method `FlagsRegister::write_flag`: sets (`|= 1 << pos`) or clears
(`&= !(1 << pos)`; on `u8` the complement is `255 ^ (1 << pos)`) one bit. -/
def FlagsRegister.write_flag (f : FlagsRegister) (flag : FlagPosition) (set : Bool) : FlagsRegister :=
  if set then ⟨f.bits ||| (1 <<< flag.toNat)⟩
  else ⟨f.bits &&& (255 ^^^ (1 <<< flag.toNat))⟩

/-- Method `FlagsRegister::read_flag`: `((bits & (1 << shift)) >> shift) == 1`. -/
def FlagsRegister.read_flag (f : FlagsRegister) (flag : FlagPosition) : Bool :=
  ((f.bits &&& (1 <<< flag.toNat)) >>> flag.toNat) == 1

/-! ## memory_bus.rs -/

/-- Constant `MEM_SPACE_END` from memory_bus.rs. -/
def MEM_SPACE_END : Nat := 0xFFFF

/-- The byte read/write contract of `MemoryBus` required by the CPU: a total
byte map over addresses.  Region dispatch inside the concrete bus is out of
scope for the claims. -/
def MemoryBus := Nat → Nat

def MemoryBus.read_byte (m : MemoryBus) (address : Nat) : Nat := m address

def MemoryBus.write_byte (m : MemoryBus) (address value : Nat) : MemoryBus :=
  fun a => if a = address then value else m a

/-! ## helpers from cpu.rs -/

/-- Function `dword_from_nibbles`: `u16::from(high) << 8 | u16::from(low)`. -/
def dword_from_nibbles (low_byte high_byte : Nat) : Nat :=
  (high_byte <<< 8) ||| low_byte

/-- Function `bcd_to_u8`: `(bcd >> 4) * 10 + (bcd & 0x0f)`. -/
def bcd_to_u8 (bcd : Nat) : Nat := (bcd >>> 4) * 10 + (bcd &&& 0x0f)

/-- Function `u8_to_bcd`: `((value / 10) << 4) | (value % 10)` below 100, else 0. -/
def u8_to_bcd (value : Nat) : Nat :=
  if value < 100 then ((value / 10) <<< 4) ||| (value % 10) else 0x00

/-- `u8::wrapping_add` on byte-sized inputs. -/
def wrappingAdd8 (a b : Nat) : Nat := (a + b) % 256

/-- `u8::wrapping_sub` on byte-sized inputs (callers pass `a, b < 256`). -/
def wrappingSub8 (a b : Nat) : Nat := (a + 256 - b) % 256

/-- `u16::wrapping_add`. -/
def wrappingAdd16 (a b : Nat) : Nat := (a + b) % 65536

/-- `u16::wrapping_sub` on word-sized inputs (callers pass `a, b < 65536`). -/
def wrappingSub16 (a b : Nat) : Nat := (a + 65536 - b) % 65536

/-- The cast chain `offset as i8 as i16 as u16` applied to a fetched byte
(`offset < 256`): sign extension of an 8-bit two's-complement value into a
16-bit word. -/
def signExtend8 (offset : Nat) : Nat :=
  if offset < 128 then offset else 0xFF00 + offset

/-! ## cpu.rs: state and methods -/

/-- The `Cpu` struct: bus, A, X, Y, PC, S, P. -/
structure Cpu where
  address_space : MemoryBus
  a : Nat
  x : Nat
  y : Nat
  pc : Nat
  s : Nat
  p : FlagsRegister

/-- Constructor `Cpu::new`: A=1, X=Y=0, PC=0x200, S=0, P=default (0). -/
def Cpu.new (mem_bus : MemoryBus) : Cpu :=
  { address_space := mem_bus, a := 1, x := 0, y := 0, pc := 0x200, s := 0,
    p := FlagsRegister.new 0 }

/-- Method `Cpu::fetch`: the `match` guarded by `0..=SPACE_END`; `none`
models the `panic!` arm. -/
def Cpu.fetchChecked (cpu : Cpu) (address : Nat) : Option Nat :=
  if address ≤ MEM_SPACE_END then some (cpu.address_space.read_byte address)
  else none

/-- `Cpu::fetch` as seen by callers (all call sites pass 16-bit addresses,
for which the guard never fails; see the claim-C10 theorem). -/
def Cpu.fetch (cpu : Cpu) (address : Nat) : Nat :=
  (cpu.fetchChecked address).getD 0

/-- Method `Cpu::fetch_dword`: little-endian 16-bit fetch. -/
def Cpu.fetch_dword (cpu : Cpu) (address : Nat) : Nat :=
  dword_from_nibbles (cpu.fetch address) (cpu.fetch (address + 1))

/-- The `ZeroIndirectIndexed` arm of `Cpu::fetch_operand` (the `(n),Y`
addressing mode); `arg0` is the decoded instruction's byte argument.
Reads the little-endian pointer at `arg0`, then returns the byte fetched at
`y + pointer` together with the effective address the source reports. -/
def Cpu.fetch_operand_zero_indirect_indexed (cpu : Cpu) (arg0 : Nat) : Nat × Option Nat :=
  let low_byte := cpu.fetch arg0
  let high_byte := cpu.fetch (arg0 + 1)
  let address := dword_from_nibbles low_byte high_byte
  (cpu.fetch (cpu.y + address), some address)

/-- Method `Cpu::adc`.  Binary branch: `r = a +w operand +w carry` on `u16`,
carry flag from `r & 0xFF00`, overflow from `(a ^ r) & (operand ^ r) & 0x80`.
Decimal branch: digit sum of the BCD decodings plus carry (a `u8` addition,
hence `% 256`), corrected by 100 on decimal carry, re-encoded with
`u8_to_bcd`.  Both branches then set A to the low byte of the result and
derive Zero/Negative from it. -/
def Cpu.adc (cpu : Cpu) (operand : Nat) : Cpu :=
  let decimal := cpu.p.read_flag .DecimalMode
  let carry := cpu.p.read_flag .Carry
  let result :=
    if !decimal then
      let a := cpu.a
      let r := (a + operand + (if carry then 1 else 0)) % 65536
      let p1 := (cpu.p.write_flag .Carry ((r &&& 0xFF00) != 0)).write_flag .Overflow
          ((((a ^^^ r) &&& (operand ^^^ r)) &&& 0x80) != 0)
      (r, p1)
    else
      let r0 := (bcd_to_u8 cpu.a + bcd_to_u8 operand + (if carry then 1 else 0)) % 256
      let carry_new := decide (99 < r0)
      let r1 := if carry_new then r0 - 100 else r0
      let p1 := cpu.p.write_flag .Carry carry_new
      (u8_to_bcd r1, p1)
  let p2 := (result.2.write_flag .Zero ((result.1 &&& 0xFF) == 0)).write_flag .Negative
      (((result.1 &&& 0x80) >>> 7) == 1)
  { cpu with a := result.1 % 256, p := p2 }

/-- Method `Cpu::sbc`.  Binary branch: `r = a -w operand -w borrow` on `u16`
with `borrow = !carry`; the source sets the carry flag from
`r & 0xFF00 != 0` and overflow from `(a ^ r) & !(operand ^ r) & 0x80`
(`!` is the `u16` complement, `0xFFFF ^ ·`).  Decimal branch: BCD digit
subtraction reinterpreted as `i8`, corrected by 100 when negative. -/
def Cpu.sbc (cpu : Cpu) (operand : Nat) : Cpu :=
  let decimal := cpu.p.read_flag .DecimalMode
  let borrow := !(cpu.p.read_flag .Carry)
  let result :=
    if !decimal then
      let a := cpu.a
      let r := wrappingSub16 (wrappingSub16 a operand) (if borrow then 1 else 0)
      let p1 := (cpu.p.write_flag .Carry ((r &&& 0xFF00) != 0)).write_flag .Overflow
          ((((a ^^^ r) &&& ((0xFFFF ^^^ (operand ^^^ r)))) &&& 0x80) != 0)
      (r, p1)
    else
      let r0 := wrappingSub8 (wrappingSub8 (bcd_to_u8 cpu.a) (bcd_to_u8 operand))
          (if borrow then 1 else 0)
      let carry := decide (128 ≤ r0)
      let r1 := if carry then (r0 + 100) % 256 else r0
      let p1 := cpu.p.write_flag .Carry carry
      (u8_to_bcd r1, p1)
  let p2 := (result.2.write_flag .Zero ((result.1 &&& 0xFF) == 0)).write_flag .Negative
      (((result.1 &&& 0x80) >>> 7) == 1)
  { cpu with a := result.1 % 256, p := p2 }

/-- Method `Cpu::cmp` (shared by CMP/CPX/CPY): the source computes
`u8::saturating_sub(register, operand)` — which on `Nat` is plain
truncated subtraction — and derives Zero/Negative from that saturated
result; carry is `register >= operand`.  Registers are untouched. -/
def Cpu.cmp (cpu : Cpu) (register operand : Nat) : Cpu :=
  let result := register - operand
  let p1 := cpu.p.write_flag .Zero (result == 0)
  let p2 := p1.write_flag .Negative (((result &&& 0x80) >>> 7) == 1)
  let p3 := p2.write_flag .Carry (decide (operand ≤ register))
  { cpu with p := p3 }

/-- Method `Cpu::branch`: PC already points past the branch instruction;
if the flag matches the expected polarity, add the sign-extended offset
with `u16` wraparound. -/
def Cpu.branch (cpu : Cpu) (offset : Nat) (flag : FlagPosition) (set : Bool) : Cpu :=
  if cpu.p.read_flag flag == set then
    { cpu with pc := wrappingAdd16 cpu.pc (signExtend8 offset) }
  else cpu

/-- The eight conditional-branch opcodes and the (flag, expected-polarity)
pair each `execute` arm passes to `Cpu::branch`. -/
inductive BranchKind where
  | bcc
  | bcs
  | beq
  | bne
  | bmi
  | bpl
  | bvc
  | bvs
deriving DecidableEq

def BranchKind.flag : BranchKind → FlagPosition
  | .bcc => .Carry
  | .bcs => .Carry
  | .beq => .Zero
  | .bne => .Zero
  | .bmi => .Negative
  | .bpl => .Negative
  | .bvc => .Overflow
  | .bvs => .Overflow

def BranchKind.set : BranchKind → Bool
  | .bcc => false
  | .bcs => true
  | .beq => true
  | .bne => false
  | .bmi => true
  | .bpl => false
  | .bvc => false
  | .bvs => true

/-- A branch arm of `Cpu::execute` (`Bcc`..`Bvs`): the immediate operand
byte `arg0` is fetched, `self.pc += 2`, then `self.branch(arg0 as i8, flag,
set)` with the pair recorded in `BranchKind`. -/
def Cpu.execBranch (cpu : Cpu) (k : BranchKind) (arg0 : Nat) : Cpu :=
  let c1 := { cpu with pc := cpu.pc + 2 }
  c1.branch arg0 k.flag k.set

/-- Method `Cpu::push`: write the byte through the bus at address `S`
(note: plain `S`, not `0x0100 | S`), then decrement S with 8-bit wrap. -/
def Cpu.push (cpu : Cpu) (value : Nat) : Cpu :=
  { cpu with address_space := cpu.address_space.write_byte cpu.s value,
             s := wrappingSub8 cpu.s 1 }

/-- Method `Cpu::push_dword`: push high byte, then low byte, each at the
current `S` (plain `S`, not `0x0100 | S`), decrementing after each write. -/
def Cpu.push_dword (cpu : Cpu) (value : Nat) : Cpu :=
  let high_byte := (value &&& 0xFF00) >>> 8
  let low_byte := value &&& 0x00FF
  let c1 := { cpu with address_space := cpu.address_space.write_byte cpu.s high_byte,
                       s := wrappingSub8 cpu.s 1 }
  { c1 with address_space := c1.address_space.write_byte c1.s low_byte,
            s := wrappingSub8 c1.s 1 }

/-- Method `Cpu::pop`: increment S with 8-bit wrap, then read the byte at
address `S` (plain `S`, not `0x0100 | S`).  Returns the new state and the
byte. -/
def Cpu.pop (cpu : Cpu) : Cpu × Nat :=
  let s1 := wrappingAdd8 cpu.s 1
  ({ cpu with s := s1 }, cpu.address_space.read_byte s1)

/-- Method `Cpu::pop_dword`: pop low byte then high byte. -/
def Cpu.pop_dword (cpu : Cpu) : Cpu × Nat :=
  let s1 := wrappingAdd8 cpu.s 1
  let low_byte := cpu.address_space.read_byte s1
  let s2 := wrappingAdd8 s1 1
  let high_byte := cpu.address_space.read_byte s2
  ({ cpu with s := s2 }, dword_from_nibbles low_byte high_byte)

/-- Method `Cpu::jsr`: `pc += 2`, push the high then the low byte of the
new PC (each at the current plain `S`), then jump to the target. -/
def Cpu.jsr (cpu : Cpu) (address : Nat) : Cpu :=
  let pc1 := cpu.pc + 2
  let high_byte := (pc1 &&& 0xFF00) >>> 8
  let low_byte := pc1 &&& 0x00FF
  let c1 := { cpu with pc := pc1,
                       address_space := cpu.address_space.write_byte cpu.s high_byte,
                       s := wrappingSub8 cpu.s 1 }
  let c2 := { c1 with address_space := c1.address_space.write_byte c1.s low_byte,
                      s := wrappingSub8 c1.s 1 }
  { c2 with pc := address }

/-- Method `Cpu::rts`: `pc = pop_dword() + 1`. -/
def Cpu.rts (cpu : Cpu) : Cpu :=
  let popped := cpu.pop_dword
  { popped.1 with pc := popped.2 + 1 }

/-- The spec's decimal ADC sum: `bcd(A) + bcd(M) + C`. -/
def decimalSum (cpu : Cpu) (m : Nat) : Nat :=
  bcd_to_u8 cpu.a + bcd_to_u8 m + (if cpu.p.read_flag .Carry then 1 else 0)

/-! ## concrete states used by evaluations and witnesses -/

/-- An all-zero bus. -/
def zeroBus : MemoryBus := fun _ => 0

/-- `Cpu::new` over the all-zero bus. -/
def cpu0 : Cpu := Cpu.new zeroBus

/-- State with S=0xFF, for the stack-address evaluation. -/
def cpuStack : Cpu := { cpu0 with s := 0xFF }

/-- State with A=5 and the carry flag set (no incoming borrow), for the SBC
carry evaluation. -/
def cpuSbc : Cpu := { cpu0 with a := 5, p := FlagsRegister.new 1 }

/-- Bus holding the little-endian pointer 0x1234 at zero page 0x20/0x21,
with distinct marker bytes at 0x1234 and at 0x1244 = 0x1234 + Y. -/
def busC4 : MemoryBus := fun a =>
  if a = 0x20 then 0x34
  else if a = 0x21 then 0x12
  else if a = 0x1234 then 0xCD
  else if a = 0x1244 then 0xAB
  else 0

/-- State with Y=0x10 over `busC4`, for the `(n),Y` evaluation. -/
def cpuC4 : Cpu := { Cpu.new busC4 with y := 0x10 }

/-- State at PC=0x1000 with Z clear, for the BNE evaluation. -/
def cpuBne : Cpu := { cpu0 with pc := 0x1000 }

/-- State at PC=0x1000 with Z set, for the BNE evaluation. -/
def cpuBneZ : Cpu := { cpu0 with pc := 0x1000, p := FlagsRegister.new 2 }

/-- State with A=0x79, DecimalMode set and carry clear (P=0b1000), for the
decimal ADC evaluation. -/
def cpuBcd : Cpu := { cpu0 with a := 0x79, p := FlagsRegister.new 8 }

/-- State with A=0x7F and all flags clear, for the binary ADC witness. -/
def cpuAdcW : Cpu := { cpu0 with a := 0x7F }

/-- State at PC=0x1000 with S=0xFF, for the JSR/RTS witness. -/
def cpuJsrW : Cpu := { cpu0 with pc := 0x1000, s := 0xFF }

/-! ## helper lemmas: the flags register as a bitfield -/

set_option maxRecDepth 8000

theorem read_flag_write_flag_self (f : FlagsRegister) (h : f.bits < 256)
    (pos : FlagPosition) (b : Bool) :
    (f.write_flag pos b).read_flag pos = b := by
  obtain ⟨bits⟩ := f
  have h2 : bits < 256 := h
  clear h
  cases pos <;> cases b <;> (revert bits; decide)

theorem read_flag_write_flag_ne (f : FlagsRegister) (h : f.bits < 256)
    {pos q : FlagPosition} (hne : pos ≠ q) (b : Bool) :
    (f.write_flag q b).read_flag pos = f.read_flag pos := by
  obtain ⟨bits⟩ := f
  have h2 : bits < 256 := h
  clear h
  cases pos <;> cases q <;>
    first
      | exact absurd rfl hne
      | (cases b <;> (revert bits; decide))

theorem write_flag_bits_lt (f : FlagsRegister) (h : f.bits < 256)
    (pos : FlagPosition) (b : Bool) :
    (f.write_flag pos b).bits < 256 := by
  obtain ⟨bits⟩ := f
  have h2 : bits < 256 := h
  clear h
  cases pos <;> cases b <;> (revert bits; decide)

/-! ## helper lemmas: bytes of 9-bit and 16-bit words -/

theorem carry_bool_eq : ∀ r < 512, (((r &&& 0xFF00 : Nat)) != 0) = decide (0xFF < r) := by
  decide

theorem zero_bool_eq : ∀ r < 512, (((r &&& 0xFF : Nat)) == 0) = decide (r % 256 = 0) := by
  decide

theorem negative_bool_eq :
    ∀ r < 512, ((((r &&& 0x80 : Nat)) >>> 7) == 1) = (r % 256).testBit 7 := by
  decide

theorem bcd_to_u8_le_99 :
    ∀ v < 256, v >>> 4 ≤ 9 → v &&& 0xF ≤ 9 → bcd_to_u8 v ≤ 99 := by
  decide

theorem u8_to_bcd_lt_256 : ∀ v < 256, u8_to_bcd v < 256 := by
  decide

theorem and_ff_eq_mod (v : Nat) : v &&& 0xFF = v % 256 := by
  have h := Nat.and_pow_two_sub_one_eq_mod v 8
  norm_num at h
  exact h

theorem and_ff00_shiftRight (v : Nat) : (v &&& 0xFF00) >>> 8 = (v >>> 8) &&& 0xFF := by
  apply Nat.eq_of_testBit_eq
  intro i
  simp only [Nat.testBit_shiftRight, Nat.testBit_and]
  congr 1
  have h : (0xFF00 : Nat) = 0xFF <<< 8 := by norm_num [Nat.shiftLeft_eq]
  rw [h, Nat.testBit_shiftLeft]
  simp

theorem hi_byte_eq (v : Nat) (h : v < 65536) : (v &&& 0xFF00) >>> 8 = v / 256 := by
  rw [and_ff00_shiftRight, and_ff_eq_mod, Nat.shiftRight_eq_div_pow]
  norm_num
  omega

theorem recombine16 (v : Nat) (h : v < 65536) :
    dword_from_nibbles (v &&& 0xFF) ((v &&& 0xFF00) >>> 8) = v := by
  rw [and_ff_eq_mod, hi_byte_eq v h]
  unfold dword_from_nibbles
  rw [Nat.shiftLeft_eq]
  have e : (2 : Nat) ^ 8 = 256 := by norm_num
  have h1 : v % 256 < 2 ^ 8 := by rw [e]; omega
  have h2 := Nat.mul_add_lt_is_or h1 (v / 256)
  rw [e] at h2
  rw [Nat.mul_comm (v / 256) 256, ← h2]
  omega

/-! ## claim theorems -/

/-- Claim C9 (confirmed): for every byte `b`, building the flags register
from `b` and converting back yields `b` (`from_byte`/`to_byte` round-trip). -/
theorem flags_roundtrip_spec (b : Nat) (h : b < 256) :
    (FlagsRegister.new b).toByte = b := rfl

theorem flags_roundtrip_spec_witness : (FlagsRegister.new 0xAB).toByte = 0xAB :=
  flags_roundtrip_spec 0xAB (by decide)

/-- Claim C10 (confirmed): the out-of-bounds panic arm of `Cpu::fetch` is
unreachable — the guard `0..=MEM_SPACE_END` covers every 16-bit address, so
a single-byte fetch always returns the byte read from the bus. -/
theorem fetch_guard_spec (cpu : Cpu) (address : Nat) (h : address < 65536) :
    cpu.fetchChecked address = some (cpu.address_space.read_byte address) := by
  unfold Cpu.fetchChecked MEM_SPACE_END
  rw [if_pos (by omega)]

theorem fetch_guard_spec_witness :
    cpu0.fetchChecked 0xABCD = some (cpu0.address_space.read_byte 0xABCD) :=
  fetch_guard_spec cpu0 0xABCD (by decide)

/-- Claim C1 (code bug): the claim places every pushed/popped stack byte at
`0x0100 | S`, but `Cpu::push` writes through the bus at plain `S` and
`Cpu::pop` reads back at plain `S` after the increment.  With S=0xFF the
pushed byte lands at 0x00FF (zero page) and 0x01FF stays untouched; the pop
then reads 0x00FF.  The S decrement/increment ordering itself matches the
claim. -/
theorem push_pop_page_zero_eval :
    ((cpuStack.push 0x42).address_space.read_byte 0x00FF = 0x42) ∧
    ((cpuStack.push 0x42).address_space.read_byte 0x01FF = 0) ∧
    ((cpuStack.push 0x42).s = 0xFE) ∧
    ((cpuStack.push 0x42).pop).2 = 0x42 ∧
    ((cpuStack.push 0x42).pop).1.s = 0xFF := by
  refine ⟨rfl, rfl, rfl, rfl, rfl⟩

/-- Claim C2 (code bug): the claim derives CMP flags from the 9-bit
subtraction `register - M`, but `Cpu::cmp` uses `u8::saturating_sub`.
At register=0, M=1 the saturated result is 0, so the code sets Z=1 and N=0
where the claim demands Z=0 (register ≠ M) and N=1 (bit 7 of 0xFF).
The carry and the untouched register agree with the claim. -/
theorem cmp_saturating_sub_eval :
    ((cpu0.cmp 0 1).p.read_flag .Zero = true) ∧
    ((cpu0.cmp 0 1).p.read_flag .Negative = false) ∧
    ((cpu0.cmp 0 1).p.read_flag .Carry = false) ∧
    (cpu0.cmp 0 1).a = cpu0.a := by
  refine ⟨rfl, rfl, rfl, rfl⟩

/-- Claim C3 (code bug): the claim sets the SBC carry to the no-borrow
condition `(r16 & 0x100) == 0`, but `Cpu::sbc` writes
`C' = (r & 0xFF00) != 0`, the exact inverse.  With A=5, M=3 and carry set
(no incoming borrow) the difference is 2 and no borrow occurs, yet the code
leaves carry clear. -/
theorem sbc_inverted_carry_eval :
    ((cpuSbc.sbc 3).a = 2) ∧ ((cpuSbc.sbc 3).p.read_flag .Carry = false) := by
  refine ⟨rfl, rfl⟩

/-- Claim C4 (code bug): for `(n),Y` the claim expects the evaluator to
yield `effective_address = Some(B + Y)`; the source reads the operand from
`B + Y` but reports `Some(B)`.  With the pointer 0x1234 at zero page 0x20
and Y=0x10, the value comes from 0x1244 while the returned address is
0x1234. -/
theorem zero_indirect_indexed_ea_eval :
    cpuC4.fetch_operand_zero_indirect_indexed 0x20 = (0xAB, some 0x1234) := by
  rfl

/-- Claim C6 (confirmed): every branch arm first advances PC by 2 and then,
exactly when the flag matches the expected polarity, adds the sign-extended
offset with 16-bit wraparound; in particular a BNE at 0x1000 with offset
-0x10 (byte 0xF0) lands at 0x0FF2 when Z=0 and at 0x1002 when Z=1. -/
theorem branch_spec :
    (∀ (cpu : Cpu) (k : BranchKind) (d : Nat), d < 256 →
      (cpu.execBranch k d).pc =
        if cpu.p.read_flag k.flag == k.set then (cpu.pc + 2 + signExtend8 d) % 65536
        else cpu.pc + 2) ∧
    (cpuBne.execBranch .bne 0xF0).pc = 0x0FF2 ∧
    (cpuBneZ.execBranch .bne 0xF0).pc = 0x1002 := by
  refine ⟨?_, by decide, by decide⟩
  intro cpu k d _
  by_cases h : (cpu.p.read_flag k.flag == k.set) = true
  · simp [Cpu.execBranch, Cpu.branch, wrappingAdd16, h]
  · simp [Cpu.execBranch, Cpu.branch, h]

theorem branch_spec_witness :
    (cpu0.execBranch BranchKind.bcc 2).pc =
      if cpu0.p.read_flag (BranchKind.bcc).flag == (BranchKind.bcc).set
      then (cpu0.pc + 2 + signExtend8 2) % 65536
      else cpu0.pc + 2 :=
  branch_spec.1 cpu0 .bcc 2 (by decide)

/-- Reading back each flag written by the binary ADC/SBC write chain
(Carry, then Overflow, then Zero, then Negative). -/
theorem read_chain4_carry (p : FlagsRegister) (hp : p.bits < 256) (bC bV bZ bN : Bool) :
    ((((p.write_flag .Carry bC).write_flag .Overflow bV).write_flag .Zero bZ).write_flag
      .Negative bN).read_flag .Carry = bC := by
  have h1 := write_flag_bits_lt p hp .Carry bC
  have h2 := write_flag_bits_lt _ h1 .Overflow bV
  have h3 := write_flag_bits_lt _ h2 .Zero bZ
  rw [read_flag_write_flag_ne _ h3 (by decide) bN,
      read_flag_write_flag_ne _ h2 (by decide) bZ,
      read_flag_write_flag_ne _ h1 (by decide) bV,
      read_flag_write_flag_self p hp .Carry bC]

theorem read_chain4_overflow (p : FlagsRegister) (hp : p.bits < 256) (bC bV bZ bN : Bool) :
    ((((p.write_flag .Carry bC).write_flag .Overflow bV).write_flag .Zero bZ).write_flag
      .Negative bN).read_flag .Overflow = bV := by
  have h1 := write_flag_bits_lt p hp .Carry bC
  have h2 := write_flag_bits_lt _ h1 .Overflow bV
  have h3 := write_flag_bits_lt _ h2 .Zero bZ
  rw [read_flag_write_flag_ne _ h3 (by decide) bN,
      read_flag_write_flag_ne _ h2 (by decide) bZ,
      read_flag_write_flag_self _ h1 .Overflow bV]

theorem read_chain4_zero (p : FlagsRegister) (hp : p.bits < 256) (bC bV bZ bN : Bool) :
    ((((p.write_flag .Carry bC).write_flag .Overflow bV).write_flag .Zero bZ).write_flag
      .Negative bN).read_flag .Zero = bZ := by
  have h1 := write_flag_bits_lt p hp .Carry bC
  have h2 := write_flag_bits_lt _ h1 .Overflow bV
  have h3 := write_flag_bits_lt _ h2 .Zero bZ
  rw [read_flag_write_flag_ne _ h3 (by decide) bN,
      read_flag_write_flag_self _ h2 .Zero bZ]

theorem read_chain4_negative (p : FlagsRegister) (hp : p.bits < 256) (bC bV bZ bN : Bool) :
    ((((p.write_flag .Carry bC).write_flag .Overflow bV).write_flag .Zero bZ).write_flag
      .Negative bN).read_flag .Negative = bN := by
  have h1 := write_flag_bits_lt p hp .Carry bC
  have h2 := write_flag_bits_lt _ h1 .Overflow bV
  have h3 := write_flag_bits_lt _ h2 .Zero bZ
  rw [read_flag_write_flag_self _ h3 .Negative bN]

/-- Reading back the carry written by the decimal ADC write chain
(Carry, then Zero, then Negative). -/
theorem read_chain3_carry (p : FlagsRegister) (hp : p.bits < 256) (bC bZ bN : Bool) :
    (((p.write_flag .Carry bC).write_flag .Zero bZ).write_flag .Negative bN).read_flag
      .Carry = bC := by
  have h1 := write_flag_bits_lt p hp .Carry bC
  have h2 := write_flag_bits_lt _ h1 .Zero bZ
  rw [read_flag_write_flag_ne _ h2 (by decide) bN,
      read_flag_write_flag_ne _ h1 (by decide) bZ,
      read_flag_write_flag_self p hp .Carry bC]

/-- Claim C5 (confirmed): with DecimalMode clear, ADC computes
`r = A + M + C`, stores the low byte into A, sets the carry exactly when
`r > 0xFF`, overflow per `(A ^ r) & (M ^ r) & 0x80 != 0`, zero iff the new
A is zero, and negative to bit 7 of the new A. -/
theorem adc_binary_spec (cpu : Cpu) (m : Nat)
    (ha : cpu.a < 256) (hm : m < 256) (hp : cpu.p.bits < 256)
    (hd : cpu.p.read_flag .DecimalMode = false) :
    (cpu.adc m).a = (cpu.a + m + (if cpu.p.read_flag .Carry then 1 else 0)) % 256 ∧
    (cpu.adc m).p.read_flag .Carry =
      decide (0xFF < cpu.a + m + (if cpu.p.read_flag .Carry then 1 else 0)) ∧
    (cpu.adc m).p.read_flag .Overflow =
      ((((cpu.a ^^^ (cpu.a + m + (if cpu.p.read_flag .Carry then 1 else 0))) &&&
          (m ^^^ (cpu.a + m + (if cpu.p.read_flag .Carry then 1 else 0)))) &&& 0x80) != 0) ∧
    (cpu.adc m).p.read_flag .Zero = decide ((cpu.adc m).a = 0) ∧
    (cpu.adc m).p.read_flag .Negative = ((cpu.adc m).a).testBit 7 := by
  cases hc : cpu.p.read_flag .Carry
  case false =>
    simp only [Cpu.adc, hd, hc, Bool.not_false, Bool.false_eq_true, if_true, if_false,
      ite_true, ite_false]
    rw [Nat.mod_eq_of_lt (show cpu.a + m + 0 < 65536 by omega)]
    refine ⟨rfl, ?_, ?_, ?_, ?_⟩
    · rw [read_chain4_carry cpu.p hp]
      exact carry_bool_eq _ (by omega)
    · rw [read_chain4_overflow cpu.p hp]
    · rw [read_chain4_zero cpu.p hp]
      exact zero_bool_eq _ (by omega)
    · rw [read_chain4_negative cpu.p hp]
      exact negative_bool_eq _ (by omega)
  case true =>
    simp only [Cpu.adc, hd, hc, Bool.not_false, Bool.false_eq_true, if_true, if_false,
      ite_true, ite_false]
    rw [Nat.mod_eq_of_lt (show cpu.a + m + 1 < 65536 by omega)]
    refine ⟨rfl, ?_, ?_, ?_, ?_⟩
    · rw [read_chain4_carry cpu.p hp]
      exact carry_bool_eq _ (by omega)
    · rw [read_chain4_overflow cpu.p hp]
    · rw [read_chain4_zero cpu.p hp]
      exact zero_bool_eq _ (by omega)
    · rw [read_chain4_negative cpu.p hp]
      exact negative_bool_eq _ (by omega)

theorem adc_binary_spec_witness :
    (cpuAdcW.adc 0x81).a = 0 ∧ (cpuAdcW.adc 0x81).p.read_flag .Carry = true := by
  have h := adc_binary_spec cpuAdcW 0x81 (by decide) (by decide) (by decide) (by decide)
  refine ⟨?_, ?_⟩
  · rw [h.1]
    decide
  · rw [h.2.1]
    decide

/-- Claim C7 (confirmed): with DecimalMode set and valid two-digit BCD
inputs, ADC forms the decimal sum `bcd(A) + bcd(M) + C`; above 99 it
subtracts 100 and sets carry, otherwise it clears carry, and A becomes the
BCD encoding of the corrected sum.  Concretely, A=0x79 plus 0x81 with C=0
gives A=0x60 with C=1, Z=0, N=0. -/
theorem adc_decimal_spec :
    (∀ (cpu : Cpu) (m : Nat), cpu.a < 256 → m < 256 →
      cpu.a >>> 4 ≤ 9 → cpu.a &&& 0xF ≤ 9 → m >>> 4 ≤ 9 → m &&& 0xF ≤ 9 →
      cpu.p.bits < 256 → cpu.p.read_flag .DecimalMode = true →
      ((99 < decimalSum cpu m →
          (cpu.adc m).a = u8_to_bcd (decimalSum cpu m - 100) ∧
          (cpu.adc m).p.read_flag .Carry = true) ∧
       (decimalSum cpu m ≤ 99 →
          (cpu.adc m).a = u8_to_bcd (decimalSum cpu m) ∧
          (cpu.adc m).p.read_flag .Carry = false))) ∧
    ((cpuBcd.adc 0x81).a = 0x60 ∧ (cpuBcd.adc 0x81).p.read_flag .Carry = true ∧
     (cpuBcd.adc 0x81).p.read_flag .Zero = false ∧
     (cpuBcd.adc 0x81).p.read_flag .Negative = false) := by
  refine ⟨?_, by decide, by decide, by decide, by decide⟩
  intro cpu m ha hm ha1 ha2 hm1 hm2 hp hd
  have hA99 := bcd_to_u8_le_99 cpu.a ha ha1 ha2
  have hM99 := bcd_to_u8_le_99 m hm hm1 hm2
  cases hc : cpu.p.read_flag .Carry
  case false =>
    simp only [Cpu.adc, decimalSum, hd, hc, Bool.not_true, Bool.false_eq_true, if_true,
      if_false, ite_true, ite_false]
    rw [Nat.mod_eq_of_lt (show bcd_to_u8 cpu.a + bcd_to_u8 m + 0 < 256 by omega)]
    constructor
    · intro h99
      rw [decide_eq_true h99]
      simp only [ite_true]
      refine ⟨?_, ?_⟩
      · rw [Nat.mod_eq_of_lt (u8_to_bcd_lt_256 _ (by omega))]
      · rw [read_chain3_carry cpu.p hp]
    · intro h99
      rw [decide_eq_false (by omega)]
      simp only [Bool.false_eq_true, if_false]
      refine ⟨?_, ?_⟩
      · rw [Nat.mod_eq_of_lt (u8_to_bcd_lt_256 _ (by omega))]
      · rw [read_chain3_carry cpu.p hp]
  case true =>
    simp only [Cpu.adc, decimalSum, hd, hc, Bool.not_true, Bool.false_eq_true, if_true,
      if_false, ite_true, ite_false]
    rw [Nat.mod_eq_of_lt (show bcd_to_u8 cpu.a + bcd_to_u8 m + 1 < 256 by omega)]
    constructor
    · intro h99
      rw [decide_eq_true h99]
      simp only [ite_true]
      refine ⟨?_, ?_⟩
      · rw [Nat.mod_eq_of_lt (u8_to_bcd_lt_256 _ (by omega))]
      · rw [read_chain3_carry cpu.p hp]
    · intro h99
      rw [decide_eq_false (by omega)]
      simp only [Bool.false_eq_true, if_false]
      refine ⟨?_, ?_⟩
      · rw [Nat.mod_eq_of_lt (u8_to_bcd_lt_256 _ (by omega))]
      · rw [read_chain3_carry cpu.p hp]

theorem adc_decimal_spec_witness :
    (cpuBcd.adc 0x81).a = u8_to_bcd (decimalSum cpuBcd 0x81 - 100) ∧
    (cpuBcd.adc 0x81).p.read_flag .Carry = true :=
  (adc_decimal_spec.1 cpuBcd 0x81 (by decide) (by decide) (by decide) (by decide)
    (by decide) (by decide) (by decide) (by decide)).1 (by decide)

/-- Claim C8 (confirmed): JSR pushes the 16-bit value PC+2 — high byte at
the current S, low byte at S-1 (each with 8-bit wrap) — leaves S
decremented twice and jumps to the target; a subsequent RTS pops that value
back, sets PC to PC+3 (the instruction after the JSR) and restores S. -/
theorem jsr_rts_spec (cpu : Cpu) (target : Nat)
    (hs : cpu.s < 256) (hpc : cpu.pc + 3 < 65536) :
    (cpu.jsr target).pc = target ∧
    (cpu.jsr target).address_space.read_byte cpu.s = (cpu.pc + 2) / 256 ∧
    (cpu.jsr target).address_space.read_byte (wrappingSub8 cpu.s 1) = (cpu.pc + 2) % 256 ∧
    (cpu.jsr target).s = (cpu.s + 254) % 256 ∧
    ((cpu.jsr target).rts).pc = cpu.pc + 3 ∧
    ((cpu.jsr target).rts).s = cpu.s := by
  refine ⟨?_, ?_, ?_, ?_, ?_, ?_⟩
  · simp only [Cpu.jsr]
  · simp only [Cpu.jsr, MemoryBus.write_byte, MemoryBus.read_byte, wrappingSub8, if_true]
    rw [if_neg (by omega)]
    exact hi_byte_eq _ (by omega)
  · simp only [Cpu.jsr, MemoryBus.write_byte, MemoryBus.read_byte, wrappingSub8, if_true]
    exact and_ff_eq_mod _
  · simp only [Cpu.jsr, wrappingSub8]
    omega
  · simp only [Cpu.jsr, Cpu.rts, Cpu.pop_dword, MemoryBus.write_byte, MemoryBus.read_byte,
      wrappingSub8, wrappingAdd8]
    rw [if_pos (by omega), if_neg (by omega), if_pos (by omega)]
    rw [recombine16 _ (by omega)]
  · simp only [Cpu.jsr, Cpu.rts, Cpu.pop_dword, wrappingSub8, wrappingAdd8]
    omega

theorem jsr_rts_spec_witness :
    ((cpuJsrW.jsr 0x4000).rts).pc = cpuJsrW.pc + 3 ∧
    ((cpuJsrW.jsr 0x4000).rts).s = cpuJsrW.s := by
  have h := jsr_rts_spec cpuJsrW 0x4000 (by decide) (by decide)
  exact ⟨h.2.2.2.2.1, h.2.2.2.2.2⟩

end Emu6502
